import Mathlib

/-!
Shallow embedding of the `Addin` repository's core (crates `git_core` and
`git_addin`), covering the repository-session operations, the status
summarizer and branch-name rendering.

Modelling conventions:
* `git2::Error` is modelled by its display message (`GitErr := String`);
  `git2::Error::from_str(m)` is the string `m` and `e.to_string()` is `e`.
* `git2::Oid` is modelled as `Nat`.
* Calls into libgit2 (reference resolution, peeling, merge analysis,
  network transport) are external infrastructure; their observable outcomes
  are fields of the abstract repository state `RepoState`, and the side
  effects an operation requests from them are recorded in a trace of
  `Effect` values, in the order the source issues them.
-/

namespace GitAddin

/-- `git2::Error`, modelled by its display message. -/
abbrev GitErr := String

/-- `git2::Oid`, modelled abstractly. -/
abbrev Oid := Nat

/-- `git_core::INVALID_UTF8` from `git_core/src/lib.rs`. -/
def INVALID_UTF8 : String := "INVALID UTF-8"

/-- `git_core::git::AuthType`. -/
inductive AuthType
  | Password (password : String)
  | None
deriving Repr, DecidableEq

/-- `git_core::git::Config` (`path` kept as a plain string). -/
structure Config where
  username : String
  auth : AuthType
  email : String
  path : String
deriving Repr, DecidableEq

/-- The credential a `RemoteCallbacks` value built by
`Repo::register_credentials` would hand to the transport: with
`AuthType::Password(p)` the callback supplies
`Cred::userpass_plaintext(config.username, p)`; with `AuthType::None`
no credential callback is registered. -/
inductive CredKind
  | anonymous
  | userpass (username password : String)
deriving Repr, DecidableEq

/-- Credentials derived from the live configuration
(`Repo::register_credentials`). -/
def credsOf (cfg : Config) : CredKind :=
  match cfg.auth with
  | .Password p => .userpass cfg.username p
  | .None => .anonymous

/-! ## Status summarizer (`git_core/src/git_status.rs`) -/

/-- `git2::Delta` (the change kind of a diff entry). -/
inductive Delta
  | Unmodified
  | Added
  | Deleted
  | Modified
  | Renamed
  | Copied
  | Ignored
  | Untracked
  | Typechange
  | Unreadable
  | Conflicted
deriving Repr, DecidableEq

/-- The name `#[derive(Debug)]` prints for each `git2::Delta` variant. -/
def Delta.debugName : Delta → String
  | .Unmodified => "Unmodified"
  | .Added => "Added"
  | .Deleted => "Deleted"
  | .Modified => "Modified"
  | .Renamed => "Renamed"
  | .Copied => "Copied"
  | .Ignored => "Ignored"
  | .Untracked => "Untracked"
  | .Typechange => "Typechange"
  | .Unreadable => "Unreadable"
  | .Conflicted => "Conflicted"

/-- One side of a `git2::DiffDelta`: `delta.old_file().path().and_then(Path::to_str)`.
`none` models both a missing path and a path that is not valid UTF-8. -/
structure DiffFile where
  path : Option String
deriving Repr, DecidableEq

/-- `git2::DiffDelta`, restricted to the fields the source reads. -/
structure DiffDelta where
  status : Delta
  old_file : DiffFile
  new_file : DiffFile
deriving Repr, DecidableEq

/-- `git_core::git_status::FileStatus`. -/
structure FileStatus where
  status : Delta
  old_file : String
  new_file : String
deriving Repr, DecidableEq

/-- `FileStatus::from_delta`. -/
def FileStatus.from_delta (delta : DiffDelta) : FileStatus :=
  { status := delta.status
    old_file := delta.old_file.path.getD INVALID_UTF8
    new_file := delta.new_file.path.getD INVALID_UTF8 }

/-- `git2::StatusEntry`, restricted to the two deltas the source reads. -/
structure StatusEntry where
  head_to_index : Option DiffDelta
  index_to_workdir : Option DiffDelta
deriving Repr, DecidableEq

/-- `git_core::git_status::StatusSummary`. -/
structure StatusSummary where
  branch_name : String
  staged : List FileStatus
  not_staged : List FileStatus
  untracked : List FileStatus
deriving Repr, DecidableEq

/-- `StatusSummary::new`. -/
def StatusSummary.new (branch_name : String) : StatusSummary :=
  { branch_name := branch_name
    staged := []
    not_staged := []
    untracked := [] }

/-- `StatusSummary::add_entry` (receiver returned instead of mutated). -/
def StatusSummary.add_entry (s : StatusSummary) (entry : StatusEntry) : StatusSummary :=
  let s :=
    match entry.head_to_index with
    | some delta => { s with staged := s.staged ++ [FileStatus.from_delta delta] }
    | none => s
  match entry.index_to_workdir.map FileStatus.from_delta with
  | some status =>
    if status.status = Delta.Untracked then
      { s with untracked := s.untracked ++ [status] }
    else
      { s with not_staged := s.not_staged ++ [status] }
  | none => s

/-- `str::to_lowercase`, modelled as per-character lowercasing (the two
agree on the ASCII strings this code applies it to). -/
def strLower (s : String) : String :=
  ⟨s.data.map Char.toLower⟩

/-- The `Display` impl for `FileStatus`. The Rust source formats the kind
with `format!("{:10?}", self.status)`: width and fill flags are ignored by
derived `Debug` implementations (padding is only applied by formatters that
call `Formatter::pad`, which the derived impl does not), so the formatted
kind is exactly the variant's debug name, then lowercased. -/
def FileStatus.display (fs : FileStatus) : String :=
  let status := strLower fs.status.debugName
  if fs.status = Delta.Renamed then
    status ++ ": " ++ fs.old_file ++ " --> " ++ fs.new_file
  else
    status ++ ": " ++ fs.old_file

/-! ## Repository state (`git_core/src/git.rs`) -/

/-- `git2::BranchType`. -/
inductive BranchType
  | Local
  | Remote
deriving Repr, DecidableEq

instance {ε α : Type} [DecidableEq ε] [DecidableEq α] : DecidableEq (Except ε α) := fun a b =>
  match a, b with
  | .error e₁, .error e₂ =>
    if h : e₁ = e₂ then .isTrue (h ▸ rfl) else .isFalse (fun hc => h (Except.error.inj hc))
  | .error _, .ok _ => .isFalse (fun hc => Except.noConfusion hc)
  | .ok _, .error _ => .isFalse (fun hc => Except.noConfusion hc)
  | .ok a₁, .ok a₂ =>
    if h : a₁ = a₂ then .isTrue (h ▸ rfl) else .isFalse (fun hc => h (Except.ok.inj hc))

/-- A `git2::Branch` as the source observes it:
* `name` is the result of `branch.name()` (`Ok(Some _)` a valid UTF-8 name,
  `Ok(None)` a name that is not valid UTF-8, `Err e` a lookup failure);
* `target` is the commit id the branch resolves and peels to
  (`get().resolve()?.peel(Commit)` / `get().peel_to_commit()`); `none`
  models any failure along that chain, surfaced by the source as its
  "Failed to obtain commit" (checkout) or the underlying peel error (pull);
* `upstream` is the name of the remote-tracking branch configured as this
  branch's upstream, `none` when no upstream is configured. -/
structure BranchData where
  name : Except GitErr (Option String)
  target : Option Oid
  upstream : Option String
deriving Repr, DecidableEq

/-- The successfully resolved HEAD reference: `shorthand()` and `name()`,
each `none` when the underlying bytes are not valid UTF-8. -/
structure HeadInfo where
  shorthand : Option String
  refname : Option String
deriving Repr, DecidableEq

/-- Side effects an operation requests from libgit2, in source order.
The reflog message passed to `set_target` is omitted. -/
inductive Effect
  | fetch (remote : String) (creds : CredKind)
  | pushRefs (refname : String) (creds : CredKind)
  | createBranch (branchName : String) (target : Oid) (force : Bool)
  | setUpstream (branchName : String) (upstream : String)
  | setHead (refname : String)
  | checkoutHead (force : Bool) (allowConflicts : Bool)
  | setTarget (branchName : String) (target : Oid)
  | indexWrite
deriving Repr, DecidableEq

/-- Whether an effect is a remote fetch. -/
def Effect.isFetch : Effect → Bool
  | .fetch _ _ => true
  | _ => false

/-- The five accessor bits of a `git2::MergeAnalysis` value as the source
reads them, plus the raw bit pattern (used only in the `unreachable!`
message). The accessors are external-library behaviour and are treated as
an oracle. -/
structure MergeAnalysisFlags where
  isNoneFlag : Bool
  isNormal : Bool
  isUpToDate : Bool
  isFastForward : Bool
  isUnborn : Bool
  bits : Nat
deriving Repr, DecidableEq

/-- The abstract state of an opened repository, holding the observable
outcomes of the libgit2 queries the source performs. -/
structure RepoState where
  /-- `repo.branches(None)` flattened, in enumeration order. -/
  branches : List (BranchData × BranchType)
  /-- `repo.remotes()`: configured remote names, `none` for a name that is
  not valid UTF-8 (skipped by the source's `.flatten()`). -/
  remotes : List (Option String)
  /-- `repo.head()`. -/
  head : Except GitErr HeadInfo
  /-- Remotes whose `remote.fetch` call fails, with the transport error. -/
  fetchFailures : List (String × GitErr)
  /-- The `MergeAnalysis` value `merge_analysis_for_ref` reports for the
  one pull call under consideration. -/
  analysis : MergeAnalysisFlags
deriving Repr, DecidableEq

/-- The transport outcome of fetching one remote. -/
def fetchErr (s : RepoState) (remote : String) : Option GitErr :=
  (s.fetchFailures.find? (fun p => p.1 == remote)).map (fun p => p.2)

/-- One step of `Repo::fetch_all`'s loop over the (flattened) remote
names: each iteration derives fresh options from the live configuration
and fetches; the first failing fetch aborts the loop with its error. -/
def fetchAllGo (s : RepoState) (cfg : Config) : List String → List Effect × Option GitErr
  | [] => ([], none)
  | r :: rs =>
    match fetchErr s r with
    | some e => ([Effect.fetch r (credsOf cfg)], some e)
    | none =>
      let rest := fetchAllGo s cfg rs
      (Effect.fetch r (credsOf cfg) :: rest.1, rest.2)

/-- `Repo::fetch_all`. -/
def fetchAll (s : RepoState) (cfg : Config) : List Effect × Option GitErr :=
  fetchAllGo s cfg (s.remotes.filterMap id)

/-- `Repo::branches`: fetch all remotes, then enumerate. -/
def Repo.branches (s : RepoState) (cfg : Config) :
    List Effect × Except GitErr (List (BranchData × BranchType)) :=
  match fetchAll s cfg with
  | (es, some e) => (es, .error e)
  | (es, none) => (es, .ok s.branches)

/-- `repo.find_branch(name, BranchType::Local)`: the local branch of that
name, if any. -/
def findLocalBranch (s : RepoState) (name : String) : Option BranchData :=
  (s.branches.find? (fun bt =>
    bt.2 == BranchType.Local && bt.1.name == Except.ok (some name))).map (fun bt => bt.1)

/-- A remote branch of the given name, if any (used to resolve a
configured upstream name to its remote-tracking branch). -/
def findRemoteBranch (s : RepoState) (name : String) : Option BranchData :=
  (s.branches.find? (fun bt =>
    bt.2 == BranchType.Remote && bt.1.name == Except.ok (some name))).map (fun bt => bt.1)

/-- `branch.upstream()`: resolve the configured upstream of a local branch
to its remote-tracking branch; fails when no upstream is configured or the
configured branch cannot be found. -/
def upstreamOf (s : RepoState) (b : BranchData) : Except GitErr BranchData :=
  match b.upstream with
  | Option.none => .error "no upstream configured"
  | some n =>
    match findRemoteBranch s n with
    | Option.none => .error "upstream branch not found"
    | some ub => .ok ub

/-- `git_core::git::TrackedBranch` (`local` is a Lean keyword, so the
field is named `localBranch`). -/
structure TrackedBranch where
  localBranch : BranchData
  upstream : Option BranchData
deriving Repr, DecidableEq

/-- `Repo::current_branch`: resolve HEAD's shorthand (falling back to the
literal `"HEAD"`), look up the local branch of that name, and attach
`local.upstream().ok()`. -/
def Repo.current_branch (s : RepoState) : Except GitErr TrackedBranch :=
  match s.head with
  | .error e => .error e
  | .ok h =>
    let head_shorthand := h.shorthand.getD "HEAD"
    match findLocalBranch s head_shorthand with
    | Option.none => .error "cannot locate local branch"
    | some b => .ok { localBranch := b, upstream := (upstreamOf s b).toOption }

/-- `Repo::push`: look up the `origin` remote, resolve HEAD's full
reference name, and push that single ref with freshly derived options.
No fetch is performed. -/
def Repo.push (s : RepoState) (cfg : Config) : List Effect × Except GitErr Unit :=
  if (s.remotes.filterMap id).contains "origin" then
    match s.head with
    | .error e => ([], .error e)
    | .ok h =>
      match h.refname with
      | Option.none => ([], .error "no branch name")
      | some rn => ([Effect.pushRefs rn (credsOf cfg)], .ok ())
  else ([], .error "remote not found")

/-- The predicate `Repo::checkout` passes to `.find(...)`: a local branch
whose `name()` is `Ok(Some(branch_name))`, or a remote branch whose
`name()` is `Ok(Some("origin/{branch_name}"))`. -/
def branchMatches (branchName remoteBranchName : String) (bt : BranchData × BranchType) : Bool :=
  match bt.2 with
  | .Local => bt.1.name == Except.ok (some branchName)
  | .Remote => bt.1.name == Except.ok (some remoteBranchName)

/-- Whether a local branch with the given (valid UTF-8) name exists;
`repo.branch(name, commit, false)` refuses to create the branch when it
does. -/
def localBranchExists (s : RepoState) (name : String) : Bool :=
  s.branches.any (fun bt => bt.2 == BranchType.Local && bt.1.name == Except.ok (some name))

/-- `Repo::checkout`: fetch all remotes; find a local branch named
`branch_name` or a remote branch named `"origin/{branch_name}"`; peel it
to a commit; when the find produced a remote branch, create the local
branch at that commit (`force = false`, so an existing local branch of
that name makes the creation fail) and set its upstream; finally set HEAD
to `refs/heads/{branch_name}` and force-checkout the working tree. The
returned state reflects branch creation and the HEAD move. -/
def Repo.checkout (s : RepoState) (cfg : Config) (branch_name : String) :
    List Effect × Except GitErr RepoState :=
  match fetchAll s cfg with
  | (es, some e) => (es, .error e)
  | (es, none) =>
    let remote_branch_name := "origin/" ++ branch_name
    match s.branches.find? (branchMatches branch_name remote_branch_name) with
    | Option.none => (es, .error "no branch with this name")
    | some (branch, branch_type) =>
      match branch.target with
      | Option.none => (es, .error "Failed to obtain commit")
      | some commit =>
        let headRef := "refs/heads/" ++ branch_name
        let newHead : HeadInfo := { shorthand := some branch_name, refname := some headRef }
        match branch_type with
        | .Local =>
          (es ++ [Effect.setHead headRef, Effect.checkoutHead true true],
           .ok { s with head := .ok newHead })
        | .Remote =>
          if localBranchExists s branch_name then
            (es ++ [Effect.createBranch branch_name commit false],
             .error "a branch with this name already exists")
          else
            let newBranch : BranchData :=
              { name := .ok (some branch_name)
                target := some commit
                upstream := some remote_branch_name }
            (es ++ [Effect.createBranch branch_name commit false,
                    Effect.setUpstream branch_name remote_branch_name,
                    Effect.setHead headRef, Effect.checkoutHead true true],
             .ok { s with
                    branches := s.branches ++ [(newBranch, BranchType.Local)],
                    head := .ok newHead })

/-- `git_core::git::PullResult`. -/
inductive PullResult
  | None
  | Normal
  | UpToDate
  | FastForwarded (old_id new_id : Oid)
  | Unborn
deriving Repr, DecidableEq

/-- The outcome of `Repo::pull`: an ordinary `Result` value, or the
`unreachable!` panic (a fatal defect distinct from an error return),
carrying the analysis bit pattern printed in the panic message. -/
inductive PullRet
  | ok (r : PullResult) (s : RepoState)
  | err (e : GitErr)
  | unreachableBits (bits : Nat)
deriving Repr, DecidableEq

/-- `branch.get_mut().set_target(oid, msg)`: retarget every local branch
of the given name (reference names are unique, so at most one entry
matches). -/
def setLocalTarget (s : RepoState) (branch_name : String) (oid : Oid) : RepoState :=
  { s with branches := s.branches.map (fun bt =>
      if bt.2 == BranchType.Local && bt.1.name == Except.ok (some branch_name) then
        ({ bt.1 with target := some oid }, bt.2)
      else bt) }

/-- `Repo::pull`: look up the local branch and its upstream, peel both to
commits, run merge analysis, and decide by testing the analysis flags in
source order; an analysis matching no flag hits `unreachable!`. In the
fast-forward case the local branch reference is retargeted to the remote
commit and `new_id` is re-read from the moved reference. -/
def Repo.pull (s : RepoState) (branch_name : String) : List Effect × PullRet :=
  match findLocalBranch s branch_name with
  | Option.none => ([], .err "cannot locate local branch")
  | some local_branch =>
    match upstreamOf s local_branch with
    | .error e => ([], .err e)
    | .ok remote_branch =>
      match local_branch.target with
      | Option.none => ([], .err "failed to peel local branch")
      | some old_id =>
        match remote_branch.target with
        | Option.none => ([], .err "failed to peel remote branch")
        | some remoteId =>
          let analisis := s.analysis
          if analisis.isNoneFlag then ([], .ok PullResult.None s)
          else if analisis.isNormal then ([], .ok PullResult.Normal s)
          else if analisis.isUpToDate then ([], .ok PullResult.UpToDate s)
          else if analisis.isFastForward then
            let s' := setLocalTarget s branch_name remoteId
            let new_id := remoteId
            ([Effect.setTarget branch_name remoteId],
             .ok (PullResult.FastForwarded old_id new_id) s')
          else if analisis.isUnborn then ([], .ok PullResult.Unborn s)
          else ([], .unreachableBits analisis.bits)

/-- `Repo::merge`: a placeholder that ignores its arguments and succeeds. -/
def Repo.merge (_s : RepoState) (_branch_from : String) (_branch_to : Option String) :
    Except GitErr Unit :=
  .ok ()

/-! ## Index / staging (`Repo::add`, `Repo::add_all`) -/

/-- The working tree and index of the repository: the paths present under
the working directory and the paths recorded in the index, each listed
without duplicates. -/
structure WorkTree where
  workdir : List String
  index : List String
deriving Repr, DecidableEq

/-- Add or update one index entry (`git_index_add_bypath` semantics: an
existing entry is updated in place, a new one appended). -/
def indexInsert (idx : List String) (p : String) : List String :=
  if idx.contains p then idx else idx ++ [p]

/-- Whether a pathspec matches a workdir path; the source only ever passes
the pathspec `"."`, which matches every path under the working directory
(other pathspecs are modelled as literal matches). -/
def matchesPathspec (spec p : String) : Bool :=
  spec == "." || spec == p

/-- `Repo::add`: `index.add_all(pathspecs, DEFAULT, None)` adds every
working-directory path matching some pathspec to the index, then
`index.write()` persists it; the updated index is returned. -/
def Repo.add (fs : WorkTree) (pathspecks : List String) : List Effect × List String :=
  let idx := fs.workdir.foldl
    (fun idx p => if pathspecks.any (fun sp => matchesPathspec sp p) then indexInsert idx p else idx)
    fs.index
  ([Effect.indexWrite], idx)

/-- `Repo::add_all`: `self.add(["."])`. -/
def Repo.add_all (fs : WorkTree) : List Effect × List String :=
  Repo.add fs ["."]

/-! ## Add-in glue (`git_addin/src/git.rs`) -/

/-- `Git::add_all_`: stage everything and render
`"{index.len()} files to be committed"`. -/
def Git.add_all_ (fs : WorkTree) : String :=
  toString (Repo.add_all fs).2.length ++ " files to be committed"

/-- `Git::merge_`: always `Ok(())`. -/
def Git.merge_ : Except GitErr Unit :=
  .ok ()

/-- `Git::merge`: renders `merge_`'s outcome
(`map_or_else(|e| e.to_string(), |()| "Successfully merged the branch")`). -/
def Git.merge : String :=
  match Git.merge_ with
  | .ok () => "Successfully merged the branch"
  | .error e => e

/-- `git_core::git::branch_name`: total rendering of a branch's name. -/
def branch_name (branch : BranchData) : String :=
  match branch.name with
  | .ok (some name) => name
  | .ok Option.none => INVALID_UTF8
  | .error e => e

/-! ## Theorems -/

/-- The lowercase change-kind label the spec describes for each kind. -/
def specKindName : Delta → String
  | .Unmodified => "unmodified"
  | .Added => "added"
  | .Deleted => "deleted"
  | .Modified => "modified"
  | .Renamed => "renamed"
  | .Copied => "copied"
  | .Ignored => "ignored"
  | .Untracked => "untracked"
  | .Typechange => "typechange"
  | .Unreadable => "unreadable"
  | .Conflicted => "conflicted"

theorem debugName_toLower (d : Delta) : strLower d.debugName = specKindName d := by
  cases d <;> rfl

/-- C9: `merge()` never fails: both the core placeholder and the add-in
wrapper always return success, and the add-in renders the success
message rather than an error. -/
theorem claim_C9_merge_never_fails :
    (∀ s branch_from branch_to, Repo.merge s branch_from branch_to = .ok ())
    ∧ Git.merge_ = (.ok () : Except GitErr Unit)
    ∧ Git.merge = "Successfully merged the branch" := by
  refine ⟨fun _ _ _ => rfl, rfl, rfl⟩

/-- C6: every `FileStatus` renders as `"{kind}: {old_file}"`, except kind
`Renamed`, which renders as `"{kind}: {old_file} --> {new_file}"`, with
the kind lowercased; in particular an added `a.txt` renders as
`"added: a.txt"`. -/
theorem claim_C6_file_status_display (fs : FileStatus) :
    FileStatus.display fs =
      (if fs.status = Delta.Renamed then
        specKindName fs.status ++ ": " ++ fs.old_file ++ " --> " ++ fs.new_file
      else
        specKindName fs.status ++ ": " ++ fs.old_file)
    ∧ FileStatus.display { status := Delta.Added, old_file := "a.txt", new_file := "a.txt" }
        = "added: a.txt" := by
  constructor
  · simp only [FileStatus.display, debugName_toLower]
  · rfl

/-- C3: `add_entry` appends the HEAD→index delta (when present) to
`staged`, and the index→working-tree delta (when present) to `untracked`
when its kind is `Untracked` and to `not_staged` otherwise; an entry
carrying both deltas contributes to `staged` and to one of the other two
buckets. -/
theorem claim_C3_add_entry_buckets (s : StatusSummary) (entry : StatusEntry) :
    ((s.add_entry entry).staged
        = s.staged ++ (match entry.head_to_index with
            | some d => [FileStatus.from_delta d]
            | Option.none => []))
    ∧ ((s.add_entry entry).untracked
        = s.untracked ++ (match entry.index_to_workdir with
            | some d =>
              if (FileStatus.from_delta d).status = Delta.Untracked then
                [FileStatus.from_delta d]
              else []
            | Option.none => []))
    ∧ ((s.add_entry entry).not_staged
        = s.not_staged ++ (match entry.index_to_workdir with
            | some d =>
              if (FileStatus.from_delta d).status = Delta.Untracked then []
              else [FileStatus.from_delta d]
            | Option.none => []))
    ∧ (∀ d₁ d₂, entry.head_to_index = some d₁ → entry.index_to_workdir = some d₂ →
        FileStatus.from_delta d₁ ∈ (s.add_entry entry).staged
        ∧ (FileStatus.from_delta d₂ ∈ (s.add_entry entry).untracked
            ∨ FileStatus.from_delta d₂ ∈ (s.add_entry entry).not_staged)) := by
  obtain ⟨hti, itw⟩ := entry
  cases hti <;> cases itw <;>
    simp only [StatusSummary.add_entry, Option.map_some, Option.map_none] <;>
    (try split) <;> (try split_ifs) <;> simp_all

/-- A HEAD→index diff delta on `a.txt` (a freshly staged file). -/
def dHead : DiffDelta :=
  { status := Delta.Added, old_file := ⟨some "a.txt"⟩, new_file := ⟨some "a.txt"⟩ }

/-- An index→working-tree diff delta on `a.txt` (modified after staging). -/
def dWork : DiffDelta :=
  { status := Delta.Modified, old_file := ⟨some "a.txt"⟩, new_file := ⟨some "a.txt"⟩ }

/-- A status entry carrying both deltas. -/
def entryBoth : StatusEntry :=
  { head_to_index := some dHead, index_to_workdir := some dWork }

theorem claim_C3_witness :
    FileStatus.from_delta dHead ∈ ((StatusSummary.new "main").add_entry entryBoth).staged
    ∧ (FileStatus.from_delta dWork ∈ ((StatusSummary.new "main").add_entry entryBoth).untracked
        ∨ FileStatus.from_delta dWork
            ∈ ((StatusSummary.new "main").add_entry entryBoth).not_staged) :=
  (claim_C3_add_entry_buckets (StatusSummary.new "main") entryBoth).2.2.2 dHead dWork rfl rfl

/-- C10: `add_entry` leaves `branch_name` and all previously appended
bucket entries unchanged (old contents stay as a prefix of each bucket),
appends at most one element to `staged`, and appends at most one element
total across `not_staged` and `untracked`. -/
theorem claim_C10_add_entry_frame (s : StatusSummary) (entry : StatusEntry) :
    (s.add_entry entry).branch_name = s.branch_name
    ∧ ((s.add_entry entry).staged).take s.staged.length = s.staged
    ∧ ((s.add_entry entry).not_staged).take s.not_staged.length = s.not_staged
    ∧ ((s.add_entry entry).untracked).take s.untracked.length = s.untracked
    ∧ (s.add_entry entry).staged.length ≤ s.staged.length + 1
    ∧ (s.add_entry entry).not_staged.length + (s.add_entry entry).untracked.length
        ≤ s.not_staged.length + s.untracked.length + 1 := by
  obtain ⟨hti, itw⟩ := entry
  cases hti <;> cases itw <;>
    simp only [StatusSummary.add_entry, Option.map_some, Option.map_none] <;>
    (try split) <;> (try split_ifs) <;> simp_all [List.take_left] <;> omega

/-- C8: branch-name rendering is total: it returns the real name when
`name()` yields valid text, the `INVALID UTF-8` sentinel when the branch
has no decodable name, and the error's own text when name resolution
errors; assuming real branch names and error messages are nonempty, the
result is never empty. -/
theorem claim_C8_branch_name_total (b : BranchData)
    (hname : ∀ n, b.name = .ok (some n) → n ≠ "")
    (herr : ∀ e, b.name = .error e → e ≠ "") :
    branch_name b ≠ ""
    ∧ (∀ n, b.name = .ok (some n) → branch_name b = n)
    ∧ (b.name = .ok Option.none → branch_name b = INVALID_UTF8)
    ∧ (∀ e, b.name = .error e → branch_name b = e) := by
  cases hb : b.name with
  | error e =>
    refine ⟨?_, ?_, ?_, ?_⟩ <;> simp [branch_name, hb]
    exact herr e hb
  | ok v =>
    cases v with
    | none =>
      refine ⟨?_, ?_, ?_, ?_⟩ <;> simp [branch_name, hb, INVALID_UTF8]
    | some n =>
      refine ⟨?_, ?_, ?_, ?_⟩ <;> simp [branch_name, hb]
      exact hname n hb

/-- A well-named local branch used as a concrete input. -/
def bMain : BranchData :=
  { name := .ok (some "main"), target := some 1, upstream := Option.none }

theorem claim_C8_witness : branch_name bMain ≠ "" :=
  (claim_C8_branch_name_total bMain
    (by intro n h; simp [bMain] at h; subst h; decide)
    (by intro e h; simp [bMain] at h)).1

/-- C7: on success, `current_branch()` looks up the local branch named by
HEAD's shorthand (falling back to the literal `"HEAD"`), reports the
upstream lookup's result with its failure mapped to `None` rather than an
error, and `upstream = None` exactly when the upstream lookup fails. -/
theorem claim_C7_current_branch_upstream :
    (∀ s hi b, s.head = .ok hi →
        findLocalBranch s (hi.shorthand.getD "HEAD") = some b →
        Repo.current_branch s
          = .ok { localBranch := b, upstream := (upstreamOf s b).toOption })
    ∧ (∀ s tb, Repo.current_branch s = .ok tb →
        (tb.upstream = Option.none ↔ ∃ e, upstreamOf s tb.localBranch = .error e)) := by
  constructor
  · intro s hi b hh hf
    simp [Repo.current_branch, hh, hf]
  · intro s tb h
    rcases hh : s.head with e | hi
    · simp [Repo.current_branch, hh] at h
    · rcases hf : findLocalBranch s (hi.shorthand.getD "HEAD") with _ | b
      · simp [Repo.current_branch, hh, hf] at h
      · simp [Repo.current_branch, hh, hf] at h
        subst h
        cases hu : upstreamOf s b with
        | error e => simp [Except.toOption, hu]
        | ok ub => simp [Except.toOption, hu]

/-- A repository whose only branch is local `main` with no upstream. -/
def sMainOnly : RepoState :=
  { branches := [(bMain, BranchType.Local)]
    remotes := []
    head := .ok { shorthand := some "main", refname := some "refs/heads/main" }
    fetchFailures := []
    analysis := { isNoneFlag := false, isNormal := false, isUpToDate := true,
                  isFastForward := false, isUnborn := false, bits := 2 } }

theorem claim_C7_witness :
    Repo.current_branch sMainOnly
      = .ok { localBranch := bMain, upstream := (upstreamOf sMainOnly bMain).toOption } :=
  claim_C7_current_branch_upstream.1 sMainOnly
    { shorthand := some "main", refname := some "refs/heads/main" } bMain rfl (by decide)

theorem indexInsert_mem_of_mem (idx : List String) (p q : String) (h : q ∈ idx) :
    q ∈ indexInsert idx p := by
  unfold indexInsert
  split
  · exact h
  · exact List.mem_append_left _ h

theorem indexInsert_self_mem (idx : List String) (p : String) : p ∈ indexInsert idx p := by
  unfold indexInsert
  split
  · next hc => exact List.mem_of_elem_eq_true hc
  · exact List.mem_append_right _ (List.mem_singleton.mpr rfl)

theorem mem_foldl_indexInsert_init (ws : List String) (idx : List String) (q : String)
    (h : q ∈ idx) : q ∈ ws.foldl indexInsert idx := by
  induction ws generalizing idx with
  | nil => exact h
  | cons p ws ih => exact ih _ (indexInsert_mem_of_mem _ _ _ h)

theorem mem_foldl_indexInsert (ws : List String) (idx : List String) (p : String)
    (h : p ∈ ws) : p ∈ ws.foldl indexInsert idx := by
  induction ws generalizing idx with
  | nil => cases h
  | cons q ws ih =>
    rcases List.mem_cons.mp h with rfl | h'
    · exact mem_foldl_indexInsert_init ws _ _ (indexInsert_self_mem _ _)
    · exact ih _ h'

theorem add_all_index (fs : WorkTree) :
    (Repo.add_all fs).2 = fs.workdir.foldl indexInsert fs.index := by
  simp [Repo.add_all, Repo.add, matchesPathspec]

/-- C5 (amended): `add_all()` stages every path under the working
directory and writes the updated index, but what the add-in reports is
the total number of index entries — previously tracked files included —
so the count is 1 only when no other file is tracked. -/
theorem claim_C5_add_all (fs : WorkTree) :
    (∀ p ∈ fs.workdir, p ∈ (Repo.add_all fs).2)
    ∧ (Repo.add_all fs).1 = [Effect.indexWrite]
    ∧ Git.add_all_ fs = toString (Repo.add_all fs).2.length ++ " files to be committed"
    ∧ Git.add_all_ { workdir := ["a.txt"], index := [] } = "1 files to be committed" := by
  refine ⟨?_, rfl, rfl, rfl⟩
  intro p hp
  rw [add_all_index]
  exact mem_foldl_indexInsert _ _ _ hp

/-- A working tree holding exactly one new file `a.txt` on top of a clean
state that tracks one file `b.txt`. -/
def cleanPlusNew : WorkTree :=
  { workdir := ["b.txt", "a.txt"], index := ["b.txt"] }

theorem claim_C5_counterexample :
    cleanPlusNew.workdir = cleanPlusNew.index ++ ["a.txt"]
    ∧ Git.add_all_ cleanPlusNew = "2 files to be committed"
    ∧ (Repo.add_all cleanPlusNew).2.length ≠ 1 := by
  refine ⟨rfl, rfl, by decide⟩

theorem claim_C5_witness : "a.txt" ∈ (Repo.add_all cleanPlusNew).2 :=
  (claim_C5_add_all cleanPlusNew).1 "a.txt" (by decide)

/-- The trace of fetching every configured remote with credentials
derived from the given configuration. -/
def fullFetchTrace (s : RepoState) (cfg : Config) : List Effect :=
  (s.remotes.filterMap id).map (fun r => Effect.fetch r (credsOf cfg))

theorem fetchAllGo_ok_trace (s : RepoState) (cfg : Config) (rs : List String)
    (h : ∀ r ∈ rs, fetchErr s r = Option.none) :
    fetchAllGo s cfg rs = (rs.map (fun r => Effect.fetch r (credsOf cfg)), Option.none) := by
  induction rs with
  | nil => rfl
  | cons r rs ih =>
    have h1 := h r (List.mem_cons_self r rs)
    have h2 := ih (fun x hx => h x (List.mem_cons_of_mem _ hx))
    simp [fetchAllGo, h1, h2]

theorem fetchAllGo_trace_fetches (s : RepoState) (cfg : Config) (rs : List String) :
    ∀ e ∈ (fetchAllGo s cfg rs).1, ∃ r, e = Effect.fetch r (credsOf cfg) := by
  induction rs with
  | nil => intro e he; cases he
  | cons r rs ih =>
    intro e he
    unfold fetchAllGo at he
    rcases hf : fetchErr s r with _ | err <;> rw [hf] at he
    · rcases List.mem_cons.mp he with rfl | h'
      · exact ⟨r, rfl⟩
      · exact ih e h'
    · rcases List.mem_cons.mp he with rfl | h'
      · exact ⟨r, rfl⟩
      · cases h'

/-- C2 (amended): `branches()` and `checkout()` perform a full fetch
across all configured remotes, with credentials derived from the live
configuration, as their first step; `push()` and `pull()` perform no
fetch at all. -/
theorem claim_C2_fetch_policy :
    (∀ s cfg, (Repo.branches s cfg).1 = (fetchAll s cfg).1)
    ∧ (∀ s cfg branch, ∃ rest, (Repo.checkout s cfg branch).1 = (fetchAll s cfg).1 ++ rest)
    ∧ (∀ s cfg, (∀ r ∈ s.remotes.filterMap id, fetchErr s r = Option.none) →
        fetchAll s cfg = (fullFetchTrace s cfg, Option.none))
    ∧ (∀ s cfg e, e ∈ (Repo.push s cfg).1 → e.isFetch = false)
    ∧ (∀ s branch e, e ∈ (Repo.pull s branch).1 → e.isFetch = false) := by
  refine ⟨?_, ?_, ?_, ?_, ?_⟩
  · intro s cfg
    rcases h : fetchAll s cfg with ⟨es, err⟩
    cases err <;> simp [Repo.branches, h]
  · intro s cfg branch
    rcases h : fetchAll s cfg with ⟨es, err⟩
    cases err with
    | some e => exact ⟨[], by simp [Repo.checkout, h]⟩
    | none =>
      rcases hf : s.branches.find? (branchMatches branch ("origin/" ++ branch)) with _ | ⟨b, bt⟩
      · exact ⟨[], by simp [Repo.checkout, h, hf]⟩
      · rcases ht : b.target with _ | c
        · exact ⟨[], by simp [Repo.checkout, h, hf, ht]⟩
        · cases bt with
          | Local =>
            exact ⟨[Effect.setHead ("refs/heads/" ++ branch), Effect.checkoutHead true true],
              by simp [Repo.checkout, h, hf, ht]⟩
          | Remote =>
            by_cases hex : localBranchExists s branch
            · exact ⟨[Effect.createBranch branch c false],
                by simp [Repo.checkout, h, hf, ht, hex]⟩
            · exact ⟨[Effect.createBranch branch c false,
                      Effect.setUpstream branch ("origin/" ++ branch),
                      Effect.setHead ("refs/heads/" ++ branch), Effect.checkoutHead true true],
                by simp [Repo.checkout, h, hf, ht, hex]⟩
  · intro s cfg h
    unfold fetchAll fullFetchTrace
    exact fetchAllGo_ok_trace s cfg _ h
  · intro s cfg e he
    by_cases hc : some "origin" ∈ s.remotes
    · rcases hh : s.head with er | hi
      · simp [Repo.push, hc, hh] at he
      · rcases hr : hi.refname with _ | rn
        · simp [Repo.push, hc, hh, hr] at he
        · simp [Repo.push, hc, hh, hr] at he
          subst he; rfl
    · simp [Repo.push, hc] at he
  · intro s branch e he
    rcases hb : findLocalBranch s branch with _ | b
    · simp [Repo.pull, hb] at he
    · rcases hu : upstreamOf s b with eu | ub
      · simp [Repo.pull, hb, hu] at he
      · rcases ht : b.target with _ | old_id
        · simp [Repo.pull, hb, hu, ht] at he
        · rcases hr : ub.target with _ | rid
          · simp [Repo.pull, hb, hu, ht, hr] at he
          · simp only [Repo.pull, hb, hu, ht, hr] at he
            split_ifs at he <;> simp at he <;> (subst he; rfl)

/-- A local `main` tracking `origin/main`, one commit behind it. -/
def bLocalMain : BranchData :=
  { name := .ok (some "main"), target := some 1, upstream := some "origin/main" }

/-- The remote-tracking branch `origin/main`. -/
def bRemoteMain : BranchData :=
  { name := .ok (some "origin/main"), target := some 2, upstream := Option.none }

/-- A repository where `main` is fast-forwardable to `origin/main`,
with remote `origin` configured and HEAD on `main`. -/
def sPull : RepoState :=
  { branches := [(bLocalMain, BranchType.Local), (bRemoteMain, BranchType.Remote)]
    remotes := [some "origin"]
    head := .ok { shorthand := some "main", refname := some "refs/heads/main" }
    fetchFailures := []
    analysis := { isNoneFlag := false, isNormal := false, isUpToDate := false,
                  isFastForward := true, isUnborn := false, bits := 4 } }

/-- The configuration the front ends build for anonymous access. -/
def cfgAnon : Config :=
  { username := "RUST", auth := .None, email := "rust@rust.rs", path := "/repos/repo" }

theorem claim_C2_counterexample :
    sPull.remotes = [some "origin"]
    ∧ fullFetchTrace sPull cfgAnon = [Effect.fetch "origin" CredKind.anonymous]
    ∧ (Repo.push sPull cfgAnon).2 = .ok ()
    ∧ (Repo.push sPull cfgAnon).1 = [Effect.pushRefs "refs/heads/main" CredKind.anonymous]
    ∧ (Repo.push sPull cfgAnon).1.all (fun e => !e.isFetch) = true
    ∧ (Repo.pull sPull "main").1 = [Effect.setTarget "main" 2]
    ∧ (Repo.pull sPull "main").1.all (fun e => !e.isFetch) = true := by
  refine ⟨rfl, rfl, by decide, by decide, by decide, by decide, by decide⟩

/-- A local branch literally named `n` exists in the branch list. -/
def existsLocalNamed (s : RepoState) (n : String) : Prop :=
  ∃ b, (b, BranchType.Local) ∈ s.branches ∧ b.name = .ok (some n)

/-- A remote branch named `n` exists in the branch list. -/
def existsRemoteNamed (s : RepoState) (n : String) : Prop :=
  ∃ b, (b, BranchType.Remote) ∈ s.branches ∧ b.name = .ok (some n)

theorem find_branch_none_iff (s : RepoState) (branch : String) :
    s.branches.find? (branchMatches branch ("origin/" ++ branch)) = Option.none
      ↔ ¬existsLocalNamed s branch ∧ ¬existsRemoteNamed s ("origin/" ++ branch) := by
  rw [List.find?_eq_none]
  constructor
  · intro h
    constructor
    · rintro ⟨b, hb, hn⟩
      have := h _ hb
      simp [branchMatches, hn] at this
    · rintro ⟨b, hb, hn⟩
      have := h _ hb
      simp [branchMatches, hn] at this
  · rintro ⟨h1, h2⟩ ⟨b, t⟩ hb
    cases t with
    | Local =>
      simp only [branchMatches, beq_iff_eq]
      intro hn
      exact h1 ⟨b, hb, hn⟩
    | Remote =>
      simp only [branchMatches, beq_iff_eq]
      intro hn
      exact h2 ⟨b, hb, hn⟩

/-- A forced branch creation, the one effect that could overwrite an
existing local branch. -/
def isForcedCreate : Effect → Bool
  | .createBranch _ _ force => force
  | _ => false

theorem fetchAll_no_forced_create (s : RepoState) (cfg : Config) :
    ∀ e ∈ (fetchAll s cfg).1, isForcedCreate e = false := by
  intro e he
  obtain ⟨r, rfl⟩ := fetchAllGo_trace_fetches s cfg _ e he
  rfl

/-- C4: when the pre-checkout fetch succeeds, `checkout(branch_name)`
fails with the "no branch with this name" error exactly when neither a
local branch named `branch_name` nor a remote branch named
`"origin/{branch_name}"` exists; when the search yields the remote
candidate and no local branch of that name exists, a new local branch is
created at the remote branch's commit with its upstream set to the remote
branch; any successful checkout extends the branch list without touching
existing branches, and no branch creation it performs is forced. -/
theorem claim_C4_checkout (s : RepoState) (cfg : Config) (branch : String)
    (hfetch : (fetchAll s cfg).2 = Option.none) :
    ((Repo.checkout s cfg branch).2 = .error "no branch with this name"
        ↔ ¬existsLocalNamed s branch ∧ ¬existsRemoteNamed s ("origin/" ++ branch))
    ∧ (∀ b c, localBranchExists s branch = false →
        s.branches.find? (branchMatches branch ("origin/" ++ branch))
          = some (b, BranchType.Remote) →
        b.target = some c →
        (Repo.checkout s cfg branch).2 = .ok
          { s with
              branches := s.branches ++
                [({ name := .ok (some branch), target := some c,
                    upstream := some ("origin/" ++ branch) }, BranchType.Local)]
              head := .ok { shorthand := some branch,
                            refname := some ("refs/heads/" ++ branch) } })
    ∧ (∀ s', (Repo.checkout s cfg branch).2 = .ok s' →
        ∃ tail, s'.branches = s.branches ++ tail)
    ∧ (∀ e ∈ (Repo.checkout s cfg branch).1, isForcedCreate e = false) := by
  rcases hq : fetchAll s cfg with ⟨es, err⟩
  have herr : err = Option.none := by
    have := hfetch
    rw [hq] at this
    exact this
  subst herr
  refine ⟨?_, ?_, ?_, ?_⟩
  · rw [← find_branch_none_iff s branch]
    constructor
    · intro h
      rcases hf : s.branches.find? (branchMatches branch ("origin/" ++ branch)) with _ | ⟨b, bt⟩
      · rfl
      · exfalso
        rcases ht : b.target with _ | c
        · simp [Repo.checkout, hq, hf, ht] at h
        · cases bt with
          | Local => simp [Repo.checkout, hq, hf, ht] at h
          | Remote =>
            by_cases hex : localBranchExists s branch = true <;>
              simp [Repo.checkout, hq, hf, ht, hex] at h
    · intro hf
      simp [Repo.checkout, hq, hf]
  · intro b c hex hf ht
    simp [Repo.checkout, hq, hf, ht, hex]
  · intro s' h
    rcases hf : s.branches.find? (branchMatches branch ("origin/" ++ branch)) with _ | ⟨b, bt⟩
    · simp [Repo.checkout, hq, hf] at h
    · rcases ht : b.target with _ | c
      · simp [Repo.checkout, hq, hf, ht] at h
      · cases bt with
        | Local =>
          simp [Repo.checkout, hq, hf, ht] at h
          exact ⟨[], by simp [← h]⟩
        | Remote =>
          by_cases hex : localBranchExists s branch = true
          · simp [Repo.checkout, hq, hf, ht, hex] at h
          · simp [Repo.checkout, hq, hf, ht, hex] at h
            exact ⟨[({ name := .ok (some branch), target := some c,
                       upstream := some ("origin/" ++ branch) }, BranchType.Local)],
              by simp [← h]⟩
  · intro e he
    have hfet : ∀ e ∈ es, isForcedCreate e = false := by
      intro x hx
      exact fetchAll_no_forced_create s cfg x (by rw [hq]; exact hx)
    rcases hf : s.branches.find? (branchMatches branch ("origin/" ++ branch)) with _ | ⟨b, bt⟩
    · simp only [Repo.checkout, hq, hf] at he
      exact hfet e he
    · rcases ht : b.target with _ | c
      · simp only [Repo.checkout, hq, hf, ht] at he
        exact hfet e he
      · cases bt with
        | Local =>
          simp only [Repo.checkout, hq, hf, ht] at he
          rcases List.mem_append.mp he with h' | h'
          · exact hfet e h'
          · rcases List.mem_cons.mp h' with rfl | h''
            · rfl
            · simp at h''
              subst h''
              rfl
        | Remote =>
          by_cases hex : localBranchExists s branch = true <;>
            simp only [Repo.checkout, hq, hf, ht, hex, if_true, if_false,
              Bool.not_eq_true] at he
          · rcases List.mem_append.mp he with h' | h'
            · exact hfet e h'
            · simp at h'
              subst h'
              rfl
          · rcases List.mem_append.mp he with h' | h'
            · exact hfet e h'
            · rcases List.mem_cons.mp h' with rfl | h''
              · rfl
              · rcases List.mem_cons.mp h'' with rfl | h₃
                · rfl
                · rcases List.mem_cons.mp h₃ with rfl | h₄
                  · rfl
                  · simp at h₄
                    subst h₄
                    rfl

/-- A remote-only branch `origin/dev`. -/
def bRemoteDev : BranchData :=
  { name := .ok (some "origin/dev"), target := some 7, upstream := Option.none }

/-- A repository where `dev` exists only as the remote branch
`origin/dev`. -/
def sCo : RepoState :=
  { branches := [(bRemoteDev, BranchType.Remote)]
    remotes := [some "origin"]
    head := .ok { shorthand := some "main", refname := some "refs/heads/main" }
    fetchFailures := []
    analysis := { isNoneFlag := false, isNormal := false, isUpToDate := true,
                  isFastForward := false, isUnborn := false, bits := 2 } }

theorem claim_C4_witness :
    (Repo.checkout sCo cfgAnon "dev").2 = .ok
      { sCo with
          branches := sCo.branches ++
            [({ name := .ok (some "dev"), target := some 7,
                upstream := some ("origin/" ++ "dev") }, BranchType.Local)]
          head := .ok { shorthand := some "dev",
                        refname := some ("refs/heads/" ++ "dev") } } :=
  (claim_C4_checkout sCo cfgAnon "dev" (by decide)).2.1 bRemoteDev 7 (by decide) (by decide) rfl

/-- The spec's decision table for pull, in priority order: each row pairs
an analysis flag with the result it selects. -/
def pullSpecTable (a : MergeAnalysisFlags) (old_id new_id : Oid) : List (Bool × PullResult) :=
  [(a.isNoneFlag, PullResult.None),
   (a.isNormal, PullResult.Normal),
   (a.isUpToDate, PullResult.UpToDate),
   (a.isFastForward, PullResult.FastForwarded old_id new_id),
   (a.isUnborn, PullResult.Unborn)]

/-- First matching row of the spec's decision table, if any. -/
def pullSpecDecision (a : MergeAnalysisFlags) (old_id new_id : Oid) : Option PullResult :=
  ((pullSpecTable a old_id new_id).find? (fun p => p.1)).map (fun p => p.2)

/-- C1: once `pull(branch_name)` reaches merge analysis, its outcome is
the first matching row of the priority table none / normal / up-to-date /
fast-forward / unborn; in the fast-forward case the local branch
reference is advanced in place to the upstream commit and the result
carries the local tip before the move as `old_id`; an analysis matching
no flag hits the `unreachable!` panic rather than an ordinary error
return. -/
theorem claim_C1_pull_decision (s : RepoState) (branch : String) (b ub : BranchData)
    (old_id rid : Oid)
    (hb : findLocalBranch s branch = some b)
    (hub : upstreamOf s b = .ok ub)
    (hold : b.target = some old_id)
    (hrid : ub.target = some rid) :
    (∀ r, pullSpecDecision s.analysis old_id rid = some r →
      ∃ s', (Repo.pull s branch).2 = PullRet.ok r s'
        ∧ (r = PullResult.FastForwarded old_id rid →
            s' = setLocalTarget s branch rid
            ∧ (Repo.pull s branch).1 = [Effect.setTarget branch rid])
        ∧ (r ≠ PullResult.FastForwarded old_id rid →
            s' = s ∧ (Repo.pull s branch).1 = []))
    ∧ (pullSpecDecision s.analysis old_id rid = Option.none →
        (Repo.pull s branch).2 = PullRet.unreachableBits s.analysis.bits) := by
  rcases hA : s.analysis with ⟨f0, f1, f2, f3, f4, bits⟩
  simp only [Repo.pull, pullSpecDecision, pullSpecTable, hb, hub, hold, hrid, hA]
  cases f0 <;> cases f1 <;> cases f2 <;> cases f3 <;> cases f4 <;> simp_all

theorem claim_C2_witness :
    fetchAll sPull cfgAnon = (fullFetchTrace sPull cfgAnon, Option.none) :=
  claim_C2_fetch_policy.2.2.1 sPull cfgAnon (by decide)

theorem claim_C1_witness :
    (Repo.pull sPull "main").2
      = PullRet.ok (PullResult.FastForwarded 1 2) (setLocalTarget sPull "main" 2)
    ∧ (Repo.pull sPull "main").1 = [Effect.setTarget "main" 2] := by
  obtain ⟨s', h1, h2, _⟩ :=
    (claim_C1_pull_decision sPull "main" bLocalMain bRemoteMain 1 2
      (by decide) (by decide) rfl rfl).1
      (PullResult.FastForwarded 1 2) (by decide)
  obtain ⟨hs, htr⟩ := h2 rfl
  subst hs
  exact ⟨h1, htr⟩

end GitAddin
